import Mathlib

/-!
Verification of the query front end of the cloudkeeper graph inventory.

Two layers are embedded here:

* namespace QueryParser — a shallow embedding of the parsy-based query
  grammar in core/query/query_parser.py. Parsers are functions from the
  remaining character list to an optional (result, rest) pair; alternation
  backtracks exactly like parsy's choice, and the unbounded repetition
  combinators take a fuel argument that callers instantiate with the input
  length plus one, which is an upper bound on the number of iterations since
  every iteration of the repeated parsers consumes at least one character.

* namespace Model — the query term algebra (simplify, section rewriting,
  the ancestor/descendant merge rewrite and the query combinator). The
  corresponding model source file is not part of the supplied sources (only
  its test suite is), so these definitions are modelled from the
  specification and pinned by the expectations of the supplied test file
  tests/core/query/model_test.py.
-/

/-- Literal values shared by predicates and function arguments. Integers keep
arbitrary precision as Nat (the grammar has no sign); a float is kept as its
two digit groups around the decimal point, since no claim depends on binary
floating point semantics. -/
inductive Value where
| str : String → Value
| num : Nat → Value
| fnum : String → String → Value
| bool : Bool → Value
| null : Value
| arr : List Value → Value

/-- Match the first list as a leading segment of the second, returning the
remainder on success. -/
def charsMatch : List Char → List Char → Option (List Char)
| [], s => some s
| _ :: _, [] => none
| c :: cs, d :: ds => if c = d then charsMatch cs ds else none

namespace QueryParser

def Parser (α : Type) : Type := List Char → Option (α × List Char)

def pPure {α : Type} (a : α) : Parser α := fun s => some (a, s)

def pFail {α : Type} : Parser α := fun _ => none

def pBind {α β : Type} (p : Parser α) (f : α → Parser β) : Parser β := fun s =>
  match p s with
  | none => none
  | some (a, s1) => f a s1

def pMap {α β : Type} (f : α → β) (p : Parser α) : Parser β := fun s =>
  match p s with
  | none => none
  | some (a, s1) => some (f a, s1)

def pOr {α : Type} (p q : Parser α) : Parser α := fun s =>
  match p s with
  | some r => some r
  | none => q s

def pSeqRight {α β : Type} (p : Parser α) (q : Parser β) : Parser β :=
  pBind p (fun _ => q)

def pSeqLeft {α β : Type} (p : Parser α) (q : Parser β) : Parser α :=
  pBind p (fun a => pBind q (fun _ => pPure a))

def pOptional {α : Type} (p : Parser α) : Parser (Option α) :=
  pOr (pMap some p) (pPure none)

def pMany {α : Type} : Nat → Parser α → Parser (List α)
| 0, _ => pPure []
| n + 1, p => fun s =>
  match p s with
  | none => some ([], s)
  | some (a, s1) =>
    match pMany n p s1 with
    | none => none
    | some (as, s2) => some (a :: as, s2)

def pSepBy {α β : Type} (fuel : Nat) (p : Parser α) (sep : Parser β) : Parser (List α) :=
  pOr (pBind p (fun x => pBind (pMany fuel (pSeqRight sep p)) (fun xs => pPure (x :: xs))))
    (pPure [])

def pStr (lit : String) : Parser String := fun s =>
  match charsMatch lit.data s with
  | none => none
  | some r => some (lit, r)

def isSpaceChar (c : Char) : Bool :=
  c = ' ' || c = '\t' || c = '\n' || c = '\r' || c = '\x0b' || c = '\x0c'

def whitespace : Parser Unit := fun s => some ((), s.dropWhile isSpaceChar)

def lexeme {α : Type} (p : Parser α) : Parser α :=
  pSeqLeft (pSeqRight whitespace p) whitespace

def operationList : List String :=
  ["<=", ">=", ">", "<", "==", "!=", "=~", "!~", "in", "not in"]

def operationP : Parser String :=
  (operationList.map (fun a => lexeme (pStr a))).foldl pOr pFail

def functionList : List String := ["in_subnet", "has_desired_change"]

def functionP : Parser String :=
  (functionList.map (fun a => lexeme (pStr a))).foldl pOr pFail

def preamblePropP : Parser String := lexeme (pStr "edge_type")

def lparenP : Parser String := lexeme (pStr "(")

def rparenP : Parser String := lexeme (pStr ")")

def lbrackP : Parser String := lexeme (pStr "[")

def rbrackP : Parser String := lexeme (pStr "]")

def colonP : Parser String := lexeme (pStr ":")

def commaP : Parser String := lexeme (pStr ",")

def dotdotP : Parser String := lexeme (pStr "..")

def equalsP : Parser String := lexeme (pStr "=")

def trueP : Parser Value := pMap (fun _ => Value.bool true) (lexeme (pStr "true"))

def falseP : Parser Value := pMap (fun _ => Value.bool false) (lexeme (pStr "false"))

def nullP : Parser Value := pMap (fun _ => Value.null) (lexeme (pStr "null"))

def digitsVal (ds : List Char) : Nat :=
  ds.foldl (fun n c => n * 10 + (c.toNat - '0'.toNat)) 0

def integerP : Parser Nat := fun s =>
  match List.span Char.isDigit s with
  | ([], _) => none
  | (ds, rest) => some (digitsVal ds, rest)

def floatP : Parser Value := fun s =>
  let (ip, r1) := List.span Char.isDigit s
  match r1 with
  | '.' :: r2 =>
    let (fp, r3) := List.span Char.isDigit r2
    some (Value.fnum (String.mk ip) (String.mk fp), r3)
  | _ => none

def isVarTail (c : Char) : Bool :=
  c.isAlpha || c.isDigit || c = '.' || c = '*' || c = '[' || c = ']'

def regexVariable : Parser String := fun s =>
  match s with
  | [] => none
  | c :: rest =>
    if c.isAlpha then
      let (a, r) := List.span isVarTail rest
      some (String.mk (c :: a), r)
    else none

def variableP : Parser String := lexeme regexVariable

def regexLiteral : Parser String := fun s =>
  match s with
  | [] => none
  | c :: rest =>
    if c.isAlpha then
      let (a, r) := List.span (fun d => d.isAlpha || d.isDigit) rest
      some (String.mk (c :: a), r)
    else none

def literalP : Parser String := lexeme regexLiteral

def stringPartP : Parser (List Char) := fun s =>
  match List.span (fun c => c ≠ '"' && c ≠ '\\') s with
  | ([], _) => none
  | (a, r) => some (a, r)

def hexVal (c : Char) : Nat :=
  if c.isDigit then c.toNat - '0'.toNat
  else if 'a' ≤ c ∧ c ≤ 'f' then c.toNat - 'a'.toNat + 10
  else c.toNat - 'A'.toNat + 10

def isHexChar (c : Char) : Bool :=
  c.isDigit || ('a' ≤ c && c ≤ 'f') || ('A' ≤ c && c ≤ 'F')

def stringEscP : Parser (List Char) := fun s =>
  match s with
  | '\\' :: '\\' :: r => some (['\\'], r)
  | '\\' :: '/' :: r => some (['/'], r)
  | '\\' :: '"' :: r => some (['"'], r)
  | '\\' :: 'b' :: r => some (['\x08'], r)
  | '\\' :: 'f' :: r => some (['\x0c'], r)
  | '\\' :: 'n' :: r => some (['\n'], r)
  | '\\' :: 'r' :: r => some (['\r'], r)
  | '\\' :: 't' :: r => some (['\t'], r)
  | '\\' :: 'u' :: a :: b :: c :: d :: r =>
    if isHexChar a && isHexChar b && isHexChar c && isHexChar d then
      some ([Char.ofNat (((hexVal a * 16 + hexVal b) * 16 + hexVal c) * 16 + hexVal d)], r)
    else none
  | _ => none

def stringInnerP (fuel : Nat) : Parser String :=
  pMap (fun parts => String.mk parts.flatten) (pMany fuel (pOr stringPartP stringEscP))

def quotedStringP (fuel : Nat) : Parser String :=
  lexeme (pSeqLeft (pSeqRight (pStr "\x22") (stringInnerP fuel)) (pStr "\x22"))

mutual
def valueP : Nat → Parser Value
| 0 => pFail
| n + 1 =>
  pOr (pMap Value.str (quotedStringP (n + 1)))
    (pOr floatP
      (pOr (pMap Value.num integerP)
        (pOr (arrayParser n)
          (pOr trueP (pOr falseP nullP)))))
def arrayParser : Nat → Parser Value
| 0 => pFail
| n + 1 =>
  pMap Value.arr (pSeqLeft (pSeqRight lbrackP (pSepBy (n + 1) (valueP n) commaP)) rbrackP)
end

/-- Terms as built by the parser in core/query/model.py of the supplied
parser era: IsInstanceTerm, IdTerm, Predicate, FunctionTerm, CombinedTerm. -/
inductive PTerm where
| isInstanceTerm : String → PTerm
| idTerm : String → PTerm
| predicate : String → String → Value → PTerm
| functionTerm : String → String → List Value → PTerm
| combinedTerm : PTerm → String → PTerm → PTerm

def predicate_term (fuel : Nat) : Parser PTerm :=
  pBind variableP (fun name =>
    pBind operationP (fun op =>
      pBind (valueP fuel) (fun v => pPure (PTerm.predicate name op v))))

def function_term (fuel : Nat) : Parser PTerm :=
  pBind functionP (fun fn =>
    pBind lparenP (fun _ =>
      pBind variableP (fun name =>
        pBind (pMany fuel (pSeqRight commaP (valueP fuel))) (fun args =>
          pBind rparenP (fun _ => pPure (PTerm.functionTerm fn name args))))))

def isinstance_term (fuel : Nat) : Parser PTerm :=
  pMap PTerm.isInstanceTerm
    (lexeme (pSeqLeft (pSeqRight (pStr "isinstance") (pSeqRight lparenP (quotedStringP fuel)))
      rparenP))

def id_term (fuel : Nat) : Parser PTerm :=
  pMap PTerm.idTerm
    (lexeme (pSeqLeft (pSeqRight (pStr "id") (pSeqRight lparenP (quotedStringP fuel))) rparenP))

def leafTermP (fuel : Nat) : Parser PTerm :=
  pOr (isinstance_term fuel) (pOr (id_term fuel) (pOr (predicate_term fuel) (function_term fuel)))

def boolOpP : Parser String := lexeme (pOr (pStr "and") (pStr "or"))

mutual
def combined_term : Nat → Parser PTerm
| 0 => pFail
| n + 1 => pBind (simpleTermP n) (fun first => combLoop n first)
def combLoop : Nat → PTerm → Parser PTerm
| 0, acc => pPure acc
| n + 1, acc => fun s =>
  match pOptional boolOpP s with
  | none => none
  | some (none, s1) => some (acc, s1)
  | some (some op, s1) =>
    match simpleTermP n s1 with
    | none => none
    | some (right, s2) => combLoop n (PTerm.combinedTerm acc op right) s2
def simpleTermP : Nat → Parser PTerm
| 0 => pFail
| n + 1 => pOr (pSeqLeft (pSeqRight lparenP (combined_term n)) rparenP) (leafTermP n)
end

def term_parserF (fuel : Nat) : Parser PTerm :=
  pOr (combined_term fuel) (simpleTermP fuel)

/-- Run the complete-term parser on a query text, as term_parser does. -/
def parse_term (s : String) : Option (PTerm × List Char) :=
  term_parserF (s.data.length + 1) s.data

/-- The until bound of a navigation: a number or the Navigation.Max sentinel
standing for an unbounded depth. -/
inductive Hop where
| num : Nat → Hop
| max : Hop
deriving DecidableEq

structure Navigation where
  start : Nat
  depth : Hop
  edge_type : Option String
  direction : String
deriving DecidableEq

def rangeParser : Parser (Nat × Hop) :=
  pBind lbrackP (fun _ =>
    pBind integerP (fun start =>
      pBind (pOptional (pOr colonP (pOr commaP dotdotP))) (fun hasEnd =>
        pBind (pOptional integerP) (fun maybeEnd =>
          pBind rbrackP (fun _ =>
            pPure (start,
              match hasEnd with
              | none => Hop.num start
              | some _ =>
                match maybeEnd with
                | some e => Hop.num e
                | none => Hop.max))))))

def edge_definition : Parser (Nat × Hop × Option String) :=
  pBind (pOptional literalP) (fun maybeEdge =>
    pBind (pOptional rangeParser) (fun maybeRange =>
      pPure (match maybeRange with
        | some (a, b) => (a, b, maybeEdge)
        | none => (1, Hop.num 1, maybeEdge))))

def outP : Parser Navigation :=
  pMap (fun nav => Navigation.mk nav.1 nav.2.1 nav.2.2 "out")
    (lexeme (pSeqLeft (pSeqRight (pStr "-") edge_definition) (pStr "->")))

def inP : Parser Navigation :=
  pMap (fun nav => Navigation.mk nav.1 nav.2.1 nav.2.2 "in")
    (lexeme (pSeqLeft (pSeqRight (pStr "<-") edge_definition) (pStr "-")))

def inOutP : Parser Navigation :=
  pMap (fun nav => Navigation.mk nav.1 nav.2.1 nav.2.2 "inout")
    (lexeme (pSeqLeft (pSeqRight (pStr "-") edge_definition) (pStr "-")))

def navigationParser : Parser Navigation := pOr outP (pOr inP inOutP)

def pinParser : Parser Bool :=
  pMap (fun x => x.isSome) (pOptional (lexeme (pStr "+")))

structure Part where
  term : PTerm
  pinned : Bool
  navigation : Option Navigation

def partParser (fuel : Nat) : Parser Part :=
  pBind (term_parserF fuel) (fun t =>
    pBind whitespace (fun _ =>
      pBind (pOr (pMap some navigationParser) (pPure none)) (fun nav =>
        pBind pinParser (fun pinned => pPure (Part.mk t pinned nav)))))

def preambleValueParser (fuel : Nat) : Parser (String × String) :=
  pBind preamblePropP (fun k =>
    pBind equalsP (fun _ =>
      pBind (pOr (quotedStringP fuel) literalP) (fun v => pPure (k, v))))

def preambleP (fuel : Nat) : Parser (List (String × String)) :=
  pSeqLeft (pSepBy fuel (preambleValueParser fuel) commaP) colonP

/-- Python dict built from key/value pairs followed by .get: the last
occurrence of a key wins, with a default for a missing key. -/
def dictGet (kvs : List (String × String)) (k d : String) : String :=
  (kvs.foldl (fun acc p => if p.1 = k then some p.2 else acc) (none : Option String)).getD d

/-- Modelled from the spec: the default edge type consumed from the graph
model (core/model/graph_access.py is not among the supplied sources). -/
def EdgeTypeDefault : String := "default"

/-- Modelled from the spec: the allowed edge-type set consumed from the graph
model (core/model/graph_access.py is not among the supplied sources). -/
def allowed_edge_types : List String := ["default", "delete"]

structure Query where
  parts : List Part

/-- The error kinds surfaced by parse_query: a parsy ParseError, or the
raised invalid-edge-type error carrying the offending value and the allowed
set exactly as the source message does. -/
inductive QueryError where
| parseError : QueryError
| invalidEdgeType : String → List String → QueryError
deriving DecidableEq

/-- The parse-time mutation of query_parser: a part whose navigation carries
no edge type receives the resolved default. -/
def backfill (et : String) (p : Part) : Part :=
  match p.navigation with
  | some nav =>
    match nav.edge_type with
    | none => Part.mk p.term p.pinned (some (Navigation.mk nav.start nav.depth (some et) nav.direction))
    | some _ => p
  | none => p

/-- The preamble and part stages of query_parser: an optional preamble
followed by as many parts as possible, with the unconsumed remainder. -/
def queryStage (s : String) : Option (Option (List (String × String)) × List Part × List Char) :=
  let cs := s.data
  let fuel := cs.length + 1
  match pOptional (preambleP fuel) cs with
  | none => none
  | some (mp, r1) =>
    match pMany fuel (partParser fuel) r1 with
    | none => none
    | some (parts, r2) => some (mp, parts, r2)

/-- query_parser composed with parsy's parse: after the parts are read the
edge type is validated (raising before the end-of-input check, as the source
raise does), every navigation without an edge type is back-filled, and the
parts are reversed. -/
def parse_query (s : String) : Except QueryError Query :=
  match queryStage s with
  | none => Except.error QueryError.parseError
  | some (mp, parts, rest) =>
    let preamble := mp.getD []
    let edge_type := dictGet preamble "edge_type" EdgeTypeDefault
    if edge_type ∈ allowed_edge_types then
      if rest.isEmpty then Except.ok (Query.mk ((parts.map (backfill edge_type)).reverse))
      else Except.error QueryError.parseError
    else Except.error (QueryError.invalidEdgeType edge_type allowed_edge_types)

end QueryParser

namespace Model

/-- Modelled from the spec: traversal direction of a navigation. -/
inductive Direction where
| inbound : Direction
| outbound : Direction
deriving DecidableEq

/-- Modelled from the spec: the until bound, a number or Unbounded. -/
inductive Depth where
| num : Nat → Depth
| unbounded : Depth
deriving DecidableEq

/-- Modelled from the spec: a fully specified navigation of the query model
(core/query/model.py is not among the supplied sources). -/
structure Navigation where
  start : Nat
  depth : Depth
  edge_type : String
  direction : Direction
deriving DecidableEq

/-- Modelled from the spec: an aggregation clause, carried as its grouping
keys and aggregate functions; the claims depend only on its presence. -/
structure Aggregate where
  group_by : List String
  group_func : List String
deriving DecidableEq

mutual
/-- Modelled from the spec: the term algebra of core/query/model.py (not
among the supplied sources): AllTerm, Predicate, FunctionTerm, IsTerm,
IdTerm, CombinedTerm and MergeTerm. -/
inductive Term where
| allTerm : Term
| predicate : String → String → Value → Term
| functionTerm : String → String → List Value → Term
| isTerm : List String → Term
| idTerm : String → Term
| combinedTerm : Term → String → Term → Term
| mergeTerm : Term → List MergeQuery → Term → Term
/-- Modelled from the spec: a named sub-query merged into the entity. -/
inductive MergeQuery where
| mk : String → Query → MergeQuery
/-- Modelled from the spec: one traversal stage. Fields: term, pinned, the
presence of a with-clause (the claims depend only on presence), an optional
limit, and an optional navigation. -/
inductive Part where
| mk : Term → Bool → Bool → Option Nat → Option Navigation → Part
/-- Modelled from the spec: the ordered parts (current part first, as the
parser reverses the textual order) plus an optional aggregation clause. -/
inductive Query where
| mk : List Part → Option Aggregate → Query
end

@[simp] def Part.term : Part → Term
| .mk t _ _ _ _ => t

@[simp] def Part.pinned : Part → Bool
| .mk _ p _ _ _ => p

@[simp] def Part.with_clause : Part → Bool
| .mk _ _ w _ _ => w

@[simp] def Part.limit : Part → Option Nat
| .mk _ _ _ l _ => l

@[simp] def Part.navigation : Part → Option Navigation
| .mk _ _ _ _ n => n

@[simp] def Query.parts : Query → List Part
| .mk ps _ => ps

@[simp] def Query.aggregate : Query → Option Aggregate
| .mk _ a => a

@[simp] def MergeQuery.name : MergeQuery → String
| .mk n _ => n

@[simp] def MergeQuery.query : MergeQuery → Query
| .mk _ q => q

/-- Whether a term is the AllTerm. -/
def Term.isAll : Term → Bool
| .allTerm => true
| _ => false

/-- Modelled from the spec: the simplification laws applied when combining
two already simplified terms: AllTerm is the identity of and and the
absorbing element of or; any other combination is kept unchanged. -/
def combine1 (l : Term) (op : String) (r : Term) : Term :=
  if op = "and" then
    if l.isAll then r else if r.isAll then l else .combinedTerm l "and" r
  else if op = "or" then
    if l.isAll || r.isAll then .allTerm else .combinedTerm l "or" r
  else .combinedTerm l op r

/-- Modelled from the spec: simplify normalizes children first and applies
the combination laws at every nesting depth. -/
def Term.simplify : Term → Term
| .combinedTerm l op r => combine1 l.simplify op r.simplify
| .mergeTerm p ms q => .mergeTerm p.simplify ms q.simplify
| t => t

/-- Modelled from the spec: combine applies the simplification laws before
constructing a CombinedTerm, recursively normalizing children first. -/
def Term.combine (l : Term) (op : String) (r : Term) : Term :=
  (Term.combinedTerm l op r).simplify

/-- Every property path referenced by a term, in encounter order. -/
def Term.paths : Term → List String
| .predicate n _ _ => [n]
| .functionTerm _ p _ => [p]
| .combinedTerm l _ r => l.paths ++ r.paths
| .mergeTerm p _ q => p.paths ++ q.paths
| _ => []

/-- Modelled from the spec: the root section marker. -/
def PathRoot : String := "/"

/-- The body of a meta-rooted path (one whose first character is the leading
path separator), or none for a section-relative path. -/
def metaTail (p : String) : Option (List Char) :=
  match p.data with
  | c :: rest => if c = '/' then some rest else none
  | [] => none

/-- Modelled from the spec: on_section prepends the section name to every
path that is not meta-rooted and strips the marker of meta-rooted paths;
with the root section marker it is the identity on paths. -/
def onSectionPath (s p : String) : String :=
  if s = PathRoot then p
  else
    match metaTail p with
    | some rest => String.mk rest
    | none => s ++ "." ++ p

/-- Modelled from the spec: relative_to_section strips a leading section
segment from every path that carries it and restores the meta-root marker
elsewhere; with the root section marker it is the identity on paths. -/
def relativePath (s p : String) : String :=
  if s = PathRoot then p
  else
    match charsMatch (s.data ++ ['.']) p.data with
    | some rest => String.mk rest
    | none => String.mk ('/' :: p.data)

/-- Rewrite every path of a term, covering predicate names, function
properties and both filters of a merge term. -/
def Term.mapPaths (f : String → String) : Term → Term
| .predicate n op v => .predicate (f n) op v
| .functionTerm fn p args => .functionTerm fn (f p) args
| .combinedTerm l op r => .combinedTerm (l.mapPaths f) op (r.mapPaths f)
| .mergeTerm p ms q => .mergeTerm (p.mapPaths f) ms (q.mapPaths f)
| t => t

/-- Strip a leading meta-root marker. -/
def stripRoot (p : String) : String :=
  match metaTail p with
  | some rest => String.mk rest
  | none => p

/-- Modelled from the spec: a path referring to a property of a transitive
ancestor or descendant node, with an optional meta-root marker. -/
def isAncestorDescendantPath (p : String) : Bool :=
  (charsMatch "ancestors.".data (stripRoot p).data).isSome ||
  (charsMatch "descendants.".data (stripRoot p).data).isSome

/-- Whether a term references at least one ancestor/descendant path. -/
def Term.refsAncestors (t : Term) : Bool :=
  !(t.paths.filter isAncestorDescendantPath).isEmpty

/-- The conjuncts of the top-level and-structure of a term, flattened in
textual order; a term that is not an and-combination is its own single
conjunct. -/
def Term.conjuncts : Term → List Term
| .combinedTerm l op r =>
  if op = "and" then l.conjuncts ++ r.conjuncts else [.combinedTerm l op r]
| t => [t]

/-- Left fold of a conjunct list back into a term, the empty list giving
AllTerm. -/
def foldAnd : List Term → Term
| [] => .allTerm
| t :: ts => ts.foldl (fun acc c => Term.combinedTerm acc "and" c) t

/-- Whether the top-level connective of a term is an and-combination. -/
def Term.isTopAnd : Term → Bool
| .combinedTerm _ op _ => decide (op = "and")
| _ => false

/-- Whether a term is a MergeTerm. -/
def Term.isMergeTerm : Term → Bool
| .mergeTerm _ _ _ => true
| _ => false

/-- Modelled from the spec: the unbounded inbound navigation used by
synthesized ancestor merge queries (NavigateUntilRoot in the test file). -/
def NavigateUntilRoot : Navigation :=
  Navigation.mk 1 Depth.unbounded "default" Direction.inbound

/-- Modelled from the spec: the error kinds of the model layer. -/
inductive ModelError where
| invalidMergePath : String → ModelError
| incompatibleQuery : ModelError
| emptyQuery : ModelError
deriving DecidableEq

/-- Split a character list at every dot, like Python str.split of a path. -/
def splitDot : List Char → List (List Char)
| [] => [[]]
| '.' :: rest => [] :: splitDot rest
| c :: rest =>
  match splitDot rest with
  | [] => [[c]]
  | seg :: segs => (c :: seg) :: segs

/-- Modelled from the spec: validate an ancestor/descendant path and give
the merge name namespace.kind, the kind, and the traversal direction;
paths outside the two namespaces or with fewer than three segments fail
with InvalidMergePath. -/
def mergePathName (p : String) : Except ModelError (String × String × Direction) :=
  match splitDot (stripRoot p).data with
  | ns :: kind :: _ :: _ =>
    if ns = "ancestors".data then
      Except.ok (String.mk (ns ++ '.' :: kind), String.mk kind, Direction.inbound)
    else if ns = "descendants".data then
      Except.ok (String.mk (ns ++ '.' :: kind), String.mk kind, Direction.outbound)
    else Except.error (ModelError.invalidMergePath p)
  | _ => Except.error (ModelError.invalidMergePath p)

/-- The distinct merge names of a path list in encounter order of first
reference. -/
def collectMergeNames (paths : List String) :
    Except ModelError (List (String × String × Direction)) :=
  paths.foldlM (fun acc p => do
    let nd ← mergePathName p
    if acc.any (fun x => x.1 = nd.1) then pure acc else pure (acc ++ [nd])) []

/-- Modelled from the spec: the synthesized merge sub-query, a part testing
the kind reached by an unbounded navigation from an all-part, using the
default edge type (shape pinned by test_merge_query_creation). -/
def synthQuery (dir : Direction) (kind : String) : Query :=
  Query.mk
    [Part.mk (Term.isTerm [kind]) false false none none,
     Part.mk Term.allTerm false false none (some (Navigation.mk 1 Depth.unbounded "default" dir))]
    none

/-- Modelled from the spec: one merge query per distinct referenced kind, in
encounter order, reusing an existing merge query of the same name rather
than synthesizing a duplicate. -/
def mergeQueriesFor (existing : List MergeQuery) (paths : List String) :
    Except ModelError (List MergeQuery) := do
  let names ← collectMergeNames paths
  pure (names.map (fun nd =>
    match existing.find? (fun m => m.name = nd.1) with
    | some m => m
    | none => MergeQuery.mk nd.1 (synthQuery nd.2.2 nd.2.1)))

/-- The merge queries already present in a part's MergeTerm, if any. -/
def Part.existingMerges (p : Part) : List MergeQuery :=
  match p.term with
  | .mergeTerm _ ms _ => ms
  | _ => []

/-- Modelled from the spec: Part.merge_queries_for of the test file, using
the part's own existing merges. -/
def Part.merge_queries_for (p : Part) (paths : List String) :
    Except ModelError (List MergeQuery) :=
  mergeQueriesFor p.existingMerges paths

/-- Modelled from the spec: the ancestor/descendant rewrite of one part.
Non-ancestor entries of the path list are ignored; with no ancestor path the
part is unchanged. A part already carrying a MergeTerm keeps its filters and
receives the new merges in front of the preserved ones; otherwise the filter
term is split into the conjuncts free of ancestor paths (the pre filter) and
the conjuncts referencing one (the post filter). -/
def rewritePart (p : Part) (paths : List String) : Except ModelError Part :=
  let aps := paths.filter isAncestorDescendantPath
  if aps.isEmpty then Except.ok p
  else
    match p.term with
    | .mergeTerm pre ms post => do
      let news ← mergeQueriesFor ms aps
      Except.ok (Part.mk
        (Term.mergeTerm pre
          (news ++ ms.filter (fun m => !(news.map MergeQuery.name).contains m.name)) post)
        p.pinned p.with_clause p.limit p.navigation)
    | t => do
      let news ← mergeQueriesFor [] aps
      let cs := t.conjuncts
      Except.ok (Part.mk
        (Term.mergeTerm (foldAnd (cs.filter (fun c => !c.refsAncestors))) news
          (foldAnd (cs.filter (fun c => c.refsAncestors))))
        p.pinned p.with_clause p.limit p.navigation)

/-- Modelled from the spec: the rewrite applied to the current part with an
explicit path list. -/
def Query.rewrite_for_ancestors_descendants (q : Query) (paths : List String) :
    Except ModelError Query :=
  match q.parts with
  | [] => Except.ok q
  | cur :: rest => do
    let cur' ← rewritePart cur paths
    Except.ok (Query.mk (cur' :: rest) q.aggregate)

/-- Rewrite every path of every part of a query. -/
def Query.mapPaths (f : String → String) (q : Query) : Query :=
  Query.mk
    (q.parts.map (fun p => Part.mk (p.term.mapPaths f) p.pinned p.with_clause p.limit p.navigation))
    q.aggregate

/-- Modelled from the spec: on_section rewrites every path relative to the
section and then applies the ancestor/descendant rewrite to the current
part, collecting the paths of its filter term. -/
def Query.on_section (s : String) (q : Query) : Except ModelError Query :=
  let q1 := q.mapPaths (onSectionPath s)
  match q1.parts with
  | [] => Except.ok q1
  | cur :: rest => do
    let cur' ← rewritePart cur cur.term.paths
    Except.ok (Query.mk (cur' :: rest) q1.aggregate)

/-- Modelled from the spec: the inverse path rewrite. -/
def Query.relative_to_section (s : String) (q : Query) : Query :=
  q.mapPaths (relativePath s)

/-- Modelled from the spec: a single-part query testing a kind. -/
def Query.by (kind : String) : Query :=
  Query.mk [Part.mk (Term.isTerm [kind]) false false none none] none

/-- Modelled from the spec: merge_with turns the current term into a
MergeTerm whose single named merge query filters by the given term reached
through the given navigation (shape pinned by test_merge_query_creation). -/
def Query.merge_with (name : String) (nav : Navigation) (t : Term) (q : Query) : Query :=
  match q.parts with
  | [] => q
  | cur :: rest =>
    Query.mk
      (Part.mk
        (Term.mergeTerm cur.term
          [MergeQuery.mk name
            (Query.mk
              [Part.mk t false false none none,
               Part.mk Term.allTerm false false none (some nav)] none)]
          Term.allTerm)
        cur.pinned cur.with_clause cur.limit cur.navigation :: rest)
      q.aggregate

/-- Whether a part carries an explicit merge: a with-clause or a MergeTerm. -/
def hasMergeClause (p : Part) : Bool :=
  p.with_clause ||
  (match p.term with
   | .mergeTerm _ _ _ => true
   | _ => false)

/-- Modelled from the spec: combining two limits takes the minimum when both
are set. -/
def combineLimits : Option Nat → Option Nat → Option Nat
| some a, some b => some (min a b)
| some a, none => some a
| none, b => b

/-- Modelled from the spec: combine conjoins the current part of the first
query with the textually first part of the second when the first query's
current part has no navigation, and otherwise concatenates the part lists
(behavior pinned by test_combine); two aggregations, or two merge clauses on
the conjoined parts, are incompatible. -/
def Query.combine (a b : Query) : Except ModelError Query :=
  if a.aggregate.isSome && b.aggregate.isSome then Except.error ModelError.incompatibleQuery
  else
    let agg := if a.aggregate.isSome then a.aggregate else b.aggregate
    match a.parts with
    | [] => Except.error ModelError.emptyQuery
    | leftLast :: aRest =>
      match b.parts.getLast? with
      | none => Except.error ModelError.emptyQuery
      | some rightFirst =>
        if leftLast.navigation.isSome then Except.ok (Query.mk (b.parts ++ a.parts) agg)
        else if hasMergeClause leftLast && hasMergeClause rightFirst then
          Except.error ModelError.incompatibleQuery
        else
          Except.ok (Query.mk
            (b.parts.dropLast ++
              Part.mk (Term.combine leftLast.term "and" rightFirst.term)
                (leftLast.pinned || rightFirst.pinned)
                (leftLast.with_clause || rightFirst.with_clause)
                (combineLimits leftLast.limit rightFirst.limit)
                rightFirst.navigation :: aRest)
            agg)

/-- The limit of the current part of a query. -/
def Query.currentLimit (q : Query) : Option Nat :=
  match q.parts with
  | [] => none
  | c :: _ => c.limit

/-- The merge names of the current part of a query. -/
def Query.currentMergeNames (q : Query) : List String :=
  match q.parts with
  | [] => []
  | c :: _ => c.existingMerges.map MergeQuery.name

/-- The ancestor/descendant paths of the current filter term. -/
def Query.currentAncPaths (q : Query) : List String :=
  match q.parts with
  | [] => []
  | c :: _ => c.term.paths.filter isAncestorDescendantPath

/-- Every path of every part of a query. -/
def Query.allPaths (q : Query) : List String :=
  q.parts.foldr (fun p acc => p.term.paths ++ acc) []

/-- A path survives the round trip through a section: it is not a meta-rooted
path whose body itself starts with the section segment. -/
def shiftable (s p : String) : Bool :=
  match metaTail p with
  | some rest => (charsMatch (s.data ++ ['.']) rest).isNone
  | none => true

end Model

namespace QueryParser

theorem pMany_total {α : Type} : ∀ (n : Nat) (p : Parser α) (s : List Char),
    ∃ r, pMany n p s = some r
| 0, _, s => ⟨([], s), rfl⟩
| n + 1, p, s => by
  cases hp : p s with
  | none => exact ⟨([], s), by simp [pMany, hp]⟩
  | some as1 =>
    obtain ⟨a, s1⟩ := as1
    obtain ⟨⟨xs, s2⟩, hr⟩ := pMany_total n p s1
    exact ⟨(a :: xs, s2), by simp [pMany, hp, hr]⟩

/-- Claim C4: the term parser gives and and or the same precedence and folds
a chain of simple terms strictly left to right as written: a three-term
chain with any two of the operators parses as a left-nested CombinedTerm
with the operators exactly where they were written, and explicit parentheses
produce a different grouping. -/
theorem c4_flat_left_fold (o1 o2 : String)
    (h1 : o1 = "and" ∨ o1 = "or") (h2 : o2 = "and" ∨ o2 = "or") :
    parse_term ("a > 1 " ++ o1 ++ " b > 2 " ++ o2 ++ " c > 3") =
      some (PTerm.combinedTerm
        (PTerm.combinedTerm (PTerm.predicate "a" ">" (Value.num 1)) o1
          (PTerm.predicate "b" ">" (Value.num 2))) o2
        (PTerm.predicate "c" ">" (Value.num 3)), []) ∧
    parse_term "a > 1 and (b > 2 or c > 3)" =
      some (PTerm.combinedTerm (PTerm.predicate "a" ">" (Value.num 1)) "and"
        (PTerm.combinedTerm (PTerm.predicate "b" ">" (Value.num 2)) "or"
          (PTerm.predicate "c" ">" (Value.num 3))), []) := by
  rcases h1 with h1 | h1 <;> rcases h2 with h2 | h2 <;> subst h1 <;> subst h2 <;>
    exact ⟨rfl, rfl⟩

/-- Witness for C4: the chain a and b or c of the claim parses as
CombinedTerm(CombinedTerm(a, and, b), or, c). -/
theorem c4_flat_left_fold_witness :
    parse_term ("a > 1 " ++ "and" ++ " b > 2 " ++ "or" ++ " c > 3") =
      some (PTerm.combinedTerm
        (PTerm.combinedTerm (PTerm.predicate "a" ">" (Value.num 1)) "and"
          (PTerm.predicate "b" ">" (Value.num 2))) "or"
        (PTerm.predicate "c" ">" (Value.num 3)), []) :=
  (c4_flat_left_fold "and" "or" (Or.inl rfl) (Or.inr rfl)).1

/-- Claim C6: an edge definition without a range defaults to the single hop
range, and the two-part query of the claim parses into exactly two parts
joined by a default single-hop outbound navigation. -/
theorem c6_default_navigation (s s1 : List Char) (e : Option String)
    (hlit : pOptional literalP s = some (e, s1))
    (hrange : rangeParser s1 = none) :
    edge_definition s = some ((1, Hop.num 1, e), s1) ∧
    parse_query "cpu > 4 and (mem < 23 or mem < 59) --> some.int.value < 1" =
      Except.ok (Query.mk
        [Part.mk (PTerm.predicate "some.int.value" "<" (Value.num 1)) false none,
         Part.mk (PTerm.combinedTerm (PTerm.predicate "cpu" ">" (Value.num 4)) "and"
            (PTerm.combinedTerm (PTerm.predicate "mem" "<" (Value.num 23)) "or"
              (PTerm.predicate "mem" "<" (Value.num 59)))) false
           (some (Navigation.mk 1 (Hop.num 1) (some "default") "out"))]) := by
  constructor
  · have hro : pOptional rangeParser s1 = some (none, s1) := by
      simp [pOptional, pOr, pMap, pPure, hrange]
    simp only [edge_definition, pBind, hlit, hro, pPure]
  · rfl

/-- Witness for C6 at the empty edge definition in front of the arrow head:
no edge type and no range yield the default single-hop range. -/
theorem c6_default_navigation_witness :
    edge_definition ("->".data) = some ((1, Hop.num 1, (none : Option String)), "->".data) ∧
    parse_query "cpu > 4 and (mem < 23 or mem < 59) --> some.int.value < 1" =
      Except.ok (Query.mk
        [Part.mk (PTerm.predicate "some.int.value" "<" (Value.num 1)) false none,
         Part.mk (PTerm.combinedTerm (PTerm.predicate "cpu" ">" (Value.num 4)) "and"
            (PTerm.combinedTerm (PTerm.predicate "mem" "<" (Value.num 23)) "or"
              (PTerm.predicate "mem" "<" (Value.num 59)))) false
           (some (Navigation.mk 1 (Hop.num 1) (some "default") "out"))]) :=
  c6_default_navigation ("->".data) ("->".data) none rfl rfl

/-- Claim C7: a preamble whose edge_type is outside the allowed set makes
parse_query fail with the invalid-edge-type error carrying the offending
value and the allowed set; no query is returned. -/
theorem c7_invalid_edge_type (s : String) (kvs : List (String × String))
    (r1 : List Char) (v : String)
    (hp : preambleP (s.data.length + 1) s.data = some (kvs, r1))
    (hv : dictGet kvs "edge_type" EdgeTypeDefault = v)
    (hbad : v ∉ allowed_edge_types) :
    parse_query s = Except.error (QueryError.invalidEdgeType v allowed_edge_types) := by
  obtain ⟨⟨parts, r2⟩, hm⟩ := pMany_total (s.data.length + 1) (partParser (s.data.length + 1)) r1
  simp only [parse_query, queryStage, pOptional, pOr, pMap, pPure, hp, hm, Option.getD, hv]
  simp [hbad]

/-- Witness for C7: an unknown edge type in the preamble is rejected with the
value and the allowed set. -/
theorem c7_invalid_edge_type_witness :
    parse_query "edge_type=foo: a > 1" =
      Except.error (QueryError.invalidEdgeType "foo" ["default", "delete"]) :=
  c7_invalid_edge_type "edge_type=foo: a > 1" [("edge_type", "foo")] ("a > 1".data) "foo"
    rfl rfl (by decide)

/-- Counterexample for claim C9: parse_query of the bare identifier ec2 does
not succeed; it fails with a parse error, because leafTermP accepts no bare
identifier (a predicate needs an operator after the variable). -/
theorem c9_counterexample : parse_query "ec2" = Except.error QueryError.parseError := rfl

/-- Claim C9 (amended): parse_query rejects the bare identifier ec2 with a
ParseError and returns no query; the kind test of this grammar is written
isinstance with a quoted kind and parses to a single-part query whose term
is IsInstanceTerm ec2. -/
theorem c9_isinstance_form :
    parse_query "ec2" = Except.error QueryError.parseError ∧
    parse_query "isinstance(\"ec2\")" =
      Except.ok (Query.mk [Part.mk (PTerm.isInstanceTerm "ec2") false none]) :=
  ⟨rfl, rfl⟩

/-- Claim C10: whenever parse_query succeeds, the produced query holds the
parts of the staged run in reverse textual order (Query(parts reversed)
after the edge-type back-fill), so the textually first part is the last
element of the part list. -/
theorem c10_parts_reversed (s : String) (q : Query)
    (mp : Option (List (String × String))) (parts : List Part) (rest : List Char)
    (hqs : queryStage s = some (mp, parts, rest))
    (h : parse_query s = Except.ok q) :
    rest = [] ∧
    q = Query.mk ((parts.map (backfill (dictGet (mp.getD []) "edge_type" EdgeTypeDefault))).reverse) := by
  simp only [parse_query, hqs] at h
  by_cases he : dictGet (mp.getD []) "edge_type" EdgeTypeDefault ∈ allowed_edge_types
  · simp only [if_pos he] at h
    by_cases hr : rest.isEmpty
    · refine ⟨List.isEmpty_iff.mp hr, ?_⟩
      simp only [if_pos hr] at h
      exact (Except.ok.injEq _ _).mp h.symm |>.symm ▸ rfl
    · simp [hr] at h
  · simp [he] at h

/-- Witness for C10: a two-part query text gives back the staged parts in
reverse order with the default edge type back-filled. -/
theorem c10_parts_reversed_witness :
    ([] : List Char) = [] ∧
    Query.mk
      [Part.mk (PTerm.predicate "b" "<" (Value.num 2)) false none,
       Part.mk (PTerm.predicate "a" "<" (Value.num 1)) false
         (some (Navigation.mk 1 (Hop.num 1) (some "default") "out"))] =
    Query.mk
      (([Part.mk (PTerm.predicate "a" "<" (Value.num 1)) false
          (some (Navigation.mk 1 (Hop.num 1) none "out")),
         Part.mk (PTerm.predicate "b" "<" (Value.num 2)) false none].map
        (backfill (dictGet ((none : Option (List (String × String))).getD [])
          "edge_type" EdgeTypeDefault))).reverse) :=
  c10_parts_reversed "a < 1 --> b < 2"
    (Query.mk
      [Part.mk (PTerm.predicate "b" "<" (Value.num 2)) false none,
       Part.mk (PTerm.predicate "a" "<" (Value.num 1)) false
         (some (Navigation.mk 1 (Hop.num 1) (some "default") "out"))])
    none
    [Part.mk (PTerm.predicate "a" "<" (Value.num 1)) false
       (some (Navigation.mk 1 (Hop.num 1) none "out")),
     Part.mk (PTerm.predicate "b" "<" (Value.num 2)) false none]
    [] rfl rfl

end QueryParser

namespace Model

theorem isAll_eq (t : Term) (h : t.isAll = true) : t = Term.allTerm := by
  cases t <;> simp [Term.isAll] at h ⊢

theorem combine1_and_all (x : Term) : combine1 x "and" Term.allTerm = x := by
  by_cases hx : x.isAll
  · rw [isAll_eq x hx]; rfl
  · simp only [combine1, if_pos rfl, if_neg hx]; rfl

theorem combine1_or_all (x : Term) : combine1 x "or" Term.allTerm = Term.allTerm := by
  simp [combine1, Term.isAll]

theorem combine1_fix (l r : Term) (op : String)
    (hl : l.simplify = l) (hr : r.simplify = r) :
    (combine1 l op r).simplify = combine1 l op r := by
  by_cases hand : op = "and"
  · subst hand
    simp only [combine1, if_pos rfl]
    by_cases hla : l.isAll
    · simp [hla, hr]
    · by_cases hra : r.isAll
      · simp [hla, hra, hl]
      · simp only [hla, hra, if_neg, Bool.false_eq_true, not_false_eq_true, ite_false]
        simp only [Term.simplify, hl, hr]
        simp [combine1, hla, hra]
  · by_cases hor : op = "or"
    · subst hor
      simp only [combine1, if_neg (by decide : ¬ ("or" = "and")), if_pos rfl]
      by_cases h : l.isAll || r.isAll
      · simp only [h, if_true]; rfl
      · simp only [h, Bool.false_eq_true, not_false_eq_true, ite_false]
        simp only [Term.simplify, hl, hr]
        simp [combine1, h]
    · simp only [combine1, if_neg hand, if_neg hor]
      simp only [Term.simplify, hl, hr]
      simp [combine1, hand, hor]

theorem simplify_idem : (t : Term) → t.simplify.simplify = t.simplify
| .allTerm => rfl
| .predicate _ _ _ => rfl
| .functionTerm _ _ _ => rfl
| .isTerm _ => rfl
| .idTerm _ => rfl
| .combinedTerm l op r => by
  simp only [Term.simplify]
  exact combine1_fix l.simplify r.simplify op (simplify_idem l) (simplify_idem r)
| .mergeTerm p ms q => by
  simp only [Term.simplify]
  rw [simplify_idem p, simplify_idem q]

/-- Claim C2: AllTerm is the identity element of and and the absorbing
element of or under combine followed by simplify, and the laws apply at
every nesting depth: an or-with-AllTerm nested below an and-combination
still collapses. -/
theorem c2_simplify_identities (t u : Term) :
    (Term.combine t "and" Term.allTerm).simplify = t.simplify ∧
    (Term.combine t "or" Term.allTerm).simplify = Term.allTerm ∧
    (Term.combinedTerm u "and" (Term.combinedTerm t "or" Term.allTerm)).simplify = u.simplify := by
  have hand : Term.combine t "and" Term.allTerm = t.simplify := by
    simp only [Term.combine, Term.simplify]
    exact combine1_and_all t.simplify
  have hor : Term.combine t "or" Term.allTerm = Term.allTerm := by
    simp only [Term.combine, Term.simplify]
    exact combine1_or_all t.simplify
  refine ⟨?_, ?_, ?_⟩
  · rw [hand, simplify_idem]
  · rw [hor]; rfl
  · have h3 : (Term.combinedTerm u "and" (Term.combinedTerm t "or" Term.allTerm)).simplify =
        combine1 u.simplify "and" (combine1 t.simplify "or" Term.allTerm.simplify) := by
      simp only [Term.simplify]
    rw [h3, show Term.allTerm.simplify = Term.allTerm from rfl, combine1_or_all, combine1_and_all]

end Model

namespace Model

theorem part_eta (p : Part) :
    Part.mk p.term p.pinned p.with_clause p.limit p.navigation = p := by
  cases p with
  | mk a b c d e => rfl

theorem strMkSelf (p : String) : String.mk p.data = p := by
  obtain ⟨pd⟩ := p
  rfl

theorem strDataAppend (a b : String) : (a ++ b).data = a.data ++ b.data := by
  obtain ⟨ad⟩ := a
  obtain ⟨bd⟩ := b
  rfl

theorem charsMatch_self_append (xs r : List Char) : charsMatch xs (xs ++ r) = some r := by
  induction xs with
  | nil => rfl
  | cons c cs ih => simp [charsMatch, ih]

theorem metaTail_some (p : String) (rest : List Char) (h : metaTail p = some rest) :
    p.data = '/' :: rest := by
  unfold metaTail at h
  cases hd : p.data with
  | nil => rw [hd] at h; cases h
  | cons c cs =>
    rw [hd] at h
    have h2 : (if c = '/' then some cs else none) = some rest := h
    by_cases hc : c = '/'
    · rw [if_pos hc] at h2
      injection h2 with h1
      rw [hc, h1]
    · rw [if_neg hc] at h2
      cases h2

theorem onSectionPath_root (p : String) : onSectionPath PathRoot p = p := by
  simp [onSectionPath]

theorem relativePath_root (p : String) : relativePath PathRoot p = p := by
  simp [relativePath]

theorem roundtripPath (s p : String) (hs : s ≠ PathRoot) (hp : shiftable s p = true) :
    relativePath s (onSectionPath s p) = p := by
  unfold shiftable at hp
  unfold onSectionPath relativePath
  rw [if_neg hs]
  cases hmt : metaTail p with
  | some rest =>
    rw [hmt] at hp
    rw [Option.isNone_iff_eq_none] at hp
    rw [if_neg hs]
    show (match charsMatch (s.data ++ ['.']) (String.mk rest).data with
      | some r2 => String.mk r2
      | none => String.mk ('/' :: (String.mk rest).data)) = p
    have hdata : (String.mk rest).data = rest := rfl
    rw [hdata, hp, ← metaTail_some p rest hmt]
  | none =>
    rw [if_neg hs]
    have hdata : (s ++ "." ++ p).data = (s.data ++ ['.']) ++ p.data := by
      rw [strDataAppend, strDataAppend]
    rw [hdata, charsMatch_self_append]

theorem mapPaths_comp_id : (t : Term) → ∀ (f g : String → String),
    (∀ p, p ∈ t.paths → g (f p) = p) → (t.mapPaths f).mapPaths g = t
| .allTerm => fun _ _ _ => rfl
| .isTerm _ => fun _ _ _ => rfl
| .idTerm _ => fun _ _ _ => rfl
| .predicate n op v => fun f g h => by
  simp only [Term.mapPaths]
  rw [h n (by simp [Term.paths])]
| .functionTerm fn pr args => fun f g h => by
  simp only [Term.mapPaths]
  rw [h pr (by simp [Term.paths])]
| .combinedTerm l op r => fun f g h => by
  simp only [Term.mapPaths]
  rw [mapPaths_comp_id l f g (fun p hp => h p (by simp only [Term.paths]; exact List.mem_append_left _ hp)),
    mapPaths_comp_id r f g (fun p hp => h p (by simp only [Term.paths]; exact List.mem_append_right _ hp))]
| .mergeTerm pre ms post => fun f g h => by
  simp only [Term.mapPaths]
  rw [mapPaths_comp_id pre f g (fun p hp => h p (by simp only [Term.paths]; exact List.mem_append_left _ hp)),
    mapPaths_comp_id post f g (fun p hp => h p (by simp only [Term.paths]; exact List.mem_append_right _ hp))]

theorem mapPaths_congr_id : (t : Term) → ∀ (f : String → String),
    (∀ p, p ∈ t.paths → f p = p) → t.mapPaths f = t
| .allTerm => fun _ _ => rfl
| .isTerm _ => fun _ _ => rfl
| .idTerm _ => fun _ _ => rfl
| .predicate n op v => fun f h => by
  simp only [Term.mapPaths]
  rw [h n (by simp [Term.paths])]
| .functionTerm fn pr args => fun f h => by
  simp only [Term.mapPaths]
  rw [h pr (by simp [Term.paths])]
| .combinedTerm l op r => fun f h => by
  simp only [Term.mapPaths]
  rw [mapPaths_congr_id l f (fun p hp => h p (by simp only [Term.paths]; exact List.mem_append_left _ hp)),
    mapPaths_congr_id r f (fun p hp => h p (by simp only [Term.paths]; exact List.mem_append_right _ hp))]
| .mergeTerm pre ms post => fun f h => by
  simp only [Term.mapPaths]
  rw [mapPaths_congr_id pre f (fun p hp => h p (by simp only [Term.paths]; exact List.mem_append_left _ hp)),
    mapPaths_congr_id post f (fun p hp => h p (by simp only [Term.paths]; exact List.mem_append_right _ hp))]

/-- The paths of a part list, in part order. -/
def partsPaths (ps : List Part) : List String :=
  ps.foldr (fun pt acc => pt.term.paths ++ acc) []

theorem allPaths_eq (ps : List Part) (agg : Option Aggregate) :
    (Query.mk ps agg).allPaths = partsPaths ps := rfl

theorem mapParts_comp_id : (ps : List Part) → ∀ (f g : String → String),
    (∀ p, p ∈ partsPaths ps → g (f p) = p) →
    ((ps.map (fun pt => Part.mk (pt.term.mapPaths f) pt.pinned pt.with_clause pt.limit pt.navigation)).map
      (fun pt => Part.mk (pt.term.mapPaths g) pt.pinned pt.with_clause pt.limit pt.navigation)) = ps
| [], _, _, _ => rfl
| hd :: tl, f, g, h => by
  obtain ⟨t0, b1, b2, l1, n1⟩ := hd
  simp only [List.map_cons]
  rw [mapParts_comp_id tl f g
      (fun p hp => h p (by simp only [partsPaths, List.foldr_cons, Part.term]; exact List.mem_append_right _ hp))]
  show Part.mk ((t0.mapPaths f).mapPaths g) b1 b2 l1 n1 :: tl = Part.mk t0 b1 b2 l1 n1 :: tl
  rw [mapPaths_comp_id t0 f g
      (fun p hp => h p (by simp only [partsPaths, List.foldr_cons, Part.term]; exact List.mem_append_left _ hp))]

theorem mapParts_congr_id : (ps : List Part) → ∀ (f : String → String),
    (∀ p, p ∈ partsPaths ps → f p = p) →
    (ps.map (fun pt => Part.mk (pt.term.mapPaths f) pt.pinned pt.with_clause pt.limit pt.navigation)) = ps
| [], _, _ => rfl
| hd :: tl, f, h => by
  obtain ⟨t0, b1, b2, l1, n1⟩ := hd
  simp only [List.map_cons]
  rw [mapParts_congr_id tl f
      (fun p hp => h p (by simp only [partsPaths, List.foldr_cons, Part.term]; exact List.mem_append_right _ hp))]
  show Part.mk (t0.mapPaths f) b1 b2 l1 n1 :: tl = Part.mk t0 b1 b2 l1 n1 :: tl
  rw [mapPaths_congr_id t0 f
      (fun p hp => h p (by simp only [partsPaths, List.foldr_cons, Part.term]; exact List.mem_append_left _ hp))]

theorem qMapPaths_comp_id (q : Query) (f g : String → String)
    (h : ∀ p, p ∈ q.allPaths → g (f p) = p) : (q.mapPaths f).mapPaths g = q := by
  obtain ⟨ps, agg⟩ := q
  simp only [Query.mapPaths, Query.parts, Query.aggregate]
  rw [mapParts_comp_id ps f g (fun p hp => h p (by rw [allPaths_eq]; exact hp))]

theorem qMapPaths_congr_id (q : Query) (f : String → String)
    (h : ∀ p, p ∈ q.allPaths → f p = p) : q.mapPaths f = q := by
  obtain ⟨ps, agg⟩ := q
  simp only [Query.mapPaths, Query.parts, Query.aggregate]
  rw [mapParts_congr_id ps f (fun p hp => h p (by rw [allPaths_eq]; exact hp))]

end Model

namespace Model

theorem query_eta (q : Query) : Query.mk q.parts q.aggregate = q := by
  cases q with
  | mk ps agg => rfl

theorem on_section_no_anc (q : Query) (s : String)
    (h2 : (q.mapPaths (onSectionPath s)).currentAncPaths = []) :
    Query.on_section s q = Except.ok (q.mapPaths (onSectionPath s)) := by
  simp only [Query.on_section]
  cases hq : (q.mapPaths (onSectionPath s)).parts with
  | nil => rfl
  | cons cur rest =>
    simp only [Query.currentAncPaths, hq] at h2
    simp only [rewritePart, h2, List.isEmpty_nil, if_true]
    show Except.ok (Query.mk (cur :: rest) (Query.mapPaths (onSectionPath s) q).aggregate) =
      Except.ok (Query.mapPaths (onSectionPath s) q)
    rw [← hq, query_eta]

/-- Claim C3 (amended): relative_to_section with the root section marker is
always the identity; on_section with the root marker returns the query
unchanged provided the current filter term references no
ancestors./descendants. path (otherwise the merge rewrite applied by
on_section introduces a MergeTerm); and relative_to_section(on_section(q, s), s)
recovers q provided additionally no path of q is meta-rooted with a body
that itself starts with the section segment. -/
theorem c3_section_inverse (q : Query) (s : String)
    (h1 : ∀ p, p ∈ q.allPaths → shiftable s p = true)
    (h2 : (q.mapPaths (onSectionPath s)).currentAncPaths = [])
    (h2r : q.currentAncPaths = []) :
    Query.relative_to_section PathRoot q = q ∧
    Query.on_section PathRoot q = Except.ok q ∧
    Query.on_section s q = Except.ok (q.mapPaths (onSectionPath s)) ∧
    Query.relative_to_section s (q.mapPaths (onSectionPath s)) = q := by
  have hidq : q.mapPaths (onSectionPath PathRoot) = q :=
    qMapPaths_congr_id q (onSectionPath PathRoot) (fun p _ => onSectionPath_root p)
  refine ⟨?_, ?_, ?_, ?_⟩
  · exact qMapPaths_congr_id q (relativePath PathRoot) (fun p _ => relativePath_root p)
  · have hroot := on_section_no_anc q PathRoot (by rw [hidq]; exact h2r)
    rw [hidq] at hroot
    exact hroot
  · exact on_section_no_anc q s h2
  · exact qMapPaths_comp_id q (onSectionPath s) (relativePath s) (fun p hp => by
      by_cases hsr : s = PathRoot
      · rw [hsr, onSectionPath_root, relativePath_root]
      · exact roundtripPath s p hsr (h1 p hp))

/-- Counterexample for claim C3: a query holding the meta-rooted path /r.a
is not recovered by relative_to_section after on_section with section r: the
forward rewrite strips the marker giving r.a, and the backward rewrite then
strips the leading section segment giving a, rather than restoring /r.a. -/
theorem c3_counterexample :
    Query.on_section "r"
        (Query.mk [Part.mk (Term.predicate "/r.a" "<" (Value.num 1)) false false none none] none) =
      Except.ok (Query.mk [Part.mk (Term.predicate "r.a" "<" (Value.num 1)) false false none none] none) ∧
    Query.relative_to_section "r"
        (Query.mk [Part.mk (Term.predicate "r.a" "<" (Value.num 1)) false false none none] none) =
      Query.mk [Part.mk (Term.predicate "a" "<" (Value.num 1)) false false none none] none ∧
    Query.mk [Part.mk (Term.predicate "a" "<" (Value.num 1)) false false none none] none ≠
      Query.mk [Part.mk (Term.predicate "/r.a" "<" (Value.num 1)) false false none none] none := by
  refine ⟨rfl, rfl, ?_⟩
  intro h
  injection h with hparts hagg
  injection hparts with hhd htl
  injection hhd with hterm hb1 hb2 hb3 hb4
  injection hterm with hname hop hval
  exact absurd hname (by decide)

/-- The query of the C3 witness: a plain path and a meta-rooted path outside
the section. -/
def sectionWitnessQuery : Query :=
  Query.mk
    [Part.mk (Term.combinedTerm (Term.predicate "a" "<" (Value.num 1)) "and"
        (Term.predicate "/metadata.b" "==" (Value.num 23))) false false none none]
    none

/-- Witness for C3 at a concrete query with a plain and a meta-rooted path. -/
theorem c3_section_inverse_witness :
    Query.relative_to_section PathRoot sectionWitnessQuery = sectionWitnessQuery ∧
    Query.on_section PathRoot sectionWitnessQuery = Except.ok sectionWitnessQuery ∧
    Query.on_section "r" sectionWitnessQuery =
      Except.ok (sectionWitnessQuery.mapPaths (onSectionPath "r")) ∧
    Query.relative_to_section "r" (sectionWitnessQuery.mapPaths (onSectionPath "r")) =
      sectionWitnessQuery :=
  c3_section_inverse sectionWitnessQuery "r" (by decide) rfl rfl

end Model

namespace Model

theorem conjuncts_not_and (t : Term) (h : t.isTopAnd = false) : t.conjuncts = [t] := by
  cases t with
  | combinedTerm l op r =>
    simp only [Term.isTopAnd, decide_eq_false_iff_not] at h
    simp [Term.conjuncts, h]
  | allTerm => rfl
  | predicate a b c => rfl
  | functionTerm a b c => rfl
  | isTerm a => rfl
  | idTerm a => rfl
  | mergeTerm a b c => rfl

/-- Claim C1: when the rewrite runs (through rewrite_for_ancestors_descendants
or through on_section) on a part whose filter term is not already a MergeTerm
and references at least one ancestor/descendant path, the term is replaced by
a MergeTerm whose pre filter is the and-fold of the conjuncts referencing no
ancestor/descendant path and whose post filter is the and-fold of the
conjuncts referencing one; when the top-level connective is not and (an or,
or a leaf), the pre filter is AllTerm and the post filter is the whole
original term. -/
theorem c1_rewrite_split (t : Term) (pin wc : Bool) (lim : Option Nat)
    (nav : Option Navigation) (ms : List MergeQuery) (rest : List Part) (agg : Option Aggregate)
    (hm : t.isMergeTerm = false)
    (haps : t.paths.filter isAncestorDescendantPath ≠ [])
    (hok : mergeQueriesFor [] (t.paths.filter isAncestorDescendantPath) = Except.ok ms) :
    rewritePart (Part.mk t pin wc lim nav) t.paths =
      Except.ok (Part.mk
        (Term.mergeTerm (foldAnd (t.conjuncts.filter (fun c => !c.refsAncestors))) ms
          (foldAnd (t.conjuncts.filter (fun c => c.refsAncestors)))) pin wc lim nav) ∧
    Query.rewrite_for_ancestors_descendants
        (Query.mk (Part.mk t pin wc lim nav :: rest) agg) t.paths =
      Except.ok (Query.mk (Part.mk
        (Term.mergeTerm (foldAnd (t.conjuncts.filter (fun c => !c.refsAncestors))) ms
          (foldAnd (t.conjuncts.filter (fun c => c.refsAncestors)))) pin wc lim nav :: rest) agg) ∧
    Query.on_section PathRoot (Query.mk (Part.mk t pin wc lim nav :: rest) agg) =
      Except.ok (Query.mk (Part.mk
        (Term.mergeTerm (foldAnd (t.conjuncts.filter (fun c => !c.refsAncestors))) ms
          (foldAnd (t.conjuncts.filter (fun c => c.refsAncestors)))) pin wc lim nav :: rest) agg) ∧
    (t.isTopAnd = false →
      foldAnd (t.conjuncts.filter (fun c => !c.refsAncestors)) = Term.allTerm ∧
      foldAnd (t.conjuncts.filter (fun c => c.refsAncestors)) = t) := by
  have hne : (t.paths.filter isAncestorDescendantPath).isEmpty = false := by
    cases hl : t.paths.filter isAncestorDescendantPath with
    | nil => exact absurd hl haps
    | cons a as => rfl
  have hrw : rewritePart (Part.mk t pin wc lim nav) t.paths =
      Except.ok (Part.mk
        (Term.mergeTerm (foldAnd (t.conjuncts.filter (fun c => !c.refsAncestors))) ms
          (foldAnd (t.conjuncts.filter (fun c => c.refsAncestors)))) pin wc lim nav) := by
    cases t with
    | mergeTerm a b c => simp [Term.isMergeTerm] at hm
    | allTerm => exact absurd (by rfl) haps
    | isTerm a => exact absurd (by rfl) haps
    | idTerm a => exact absurd (by rfl) haps
    | predicate a b c =>
      simp only [rewritePart, Part.term, Part.pinned, Part.with_clause, Part.limit,
        Part.navigation, hne, Bool.false_eq_true, if_false, hok]
      rfl
    | functionTerm a b c =>
      simp only [rewritePart, Part.term, Part.pinned, Part.with_clause, Part.limit,
        Part.navigation, hne, Bool.false_eq_true, if_false, hok]
      rfl
    | combinedTerm l op r =>
      simp only [rewritePart, Part.term, Part.pinned, Part.with_clause, Part.limit,
        Part.navigation, hne, Bool.false_eq_true, if_false, hok]
      rfl
  refine ⟨hrw, ?_, ?_, ?_⟩
  · simp only [Query.rewrite_for_ancestors_descendants, Query.parts, Query.aggregate, hrw]
    rfl
  · have hidq : (Query.mk (Part.mk t pin wc lim nav :: rest) agg).mapPaths
        (onSectionPath PathRoot) = Query.mk (Part.mk t pin wc lim nav :: rest) agg :=
      qMapPaths_congr_id _ (onSectionPath PathRoot) (fun p _ => onSectionPath_root p)
    simp only [Query.on_section, hidq, Query.parts, Query.aggregate, Part.term, hrw]
    rfl
  · intro htop
    have hconj := conjuncts_not_and t htop
    have hrefs : t.refsAncestors = true := by
      simp only [Term.refsAncestors, hne, Bool.not_false]
    rw [hconj]
    constructor
    · simp [List.filter, hrefs, foldAnd]
    · simp [List.filter, hrefs, foldAnd]

/-- The or-shaped term of the C1 witness: a conjunction of two plain
predicates or-combined with an ancestor predicate. -/
def orSplitTerm : Term :=
  Term.combinedTerm
    (Term.combinedTerm (Term.predicate "a" "<" (Value.num 1)) "and"
      (Term.predicate "b" ">" (Value.num 1)))
    "or" (Term.predicate "ancestors.d.c" "<" (Value.num 1))

/-- Witness for C1 at the or-shaped term: the rewrite produces the AllTerm
pre filter, the synthesized ancestors.d merge, and the whole original term
as the post filter. -/
theorem c1_rewrite_split_witness :
    rewritePart (Part.mk orSplitTerm false false none none) orSplitTerm.paths =
      Except.ok (Part.mk
        (Term.mergeTerm (foldAnd (orSplitTerm.conjuncts.filter (fun c => !c.refsAncestors)))
          [MergeQuery.mk "ancestors.d" (synthQuery Direction.inbound "d")]
          (foldAnd (orSplitTerm.conjuncts.filter (fun c => c.refsAncestors)))) false false none none) ∧
    Query.rewrite_for_ancestors_descendants
        (Query.mk [Part.mk orSplitTerm false false none none] none) orSplitTerm.paths =
      Except.ok (Query.mk [Part.mk
        (Term.mergeTerm (foldAnd (orSplitTerm.conjuncts.filter (fun c => !c.refsAncestors)))
          [MergeQuery.mk "ancestors.d" (synthQuery Direction.inbound "d")]
          (foldAnd (orSplitTerm.conjuncts.filter (fun c => c.refsAncestors)))) false false none none] none) ∧
    Query.on_section PathRoot (Query.mk [Part.mk orSplitTerm false false none none] none) =
      Except.ok (Query.mk [Part.mk
        (Term.mergeTerm (foldAnd (orSplitTerm.conjuncts.filter (fun c => !c.refsAncestors)))
          [MergeQuery.mk "ancestors.d" (synthQuery Direction.inbound "d")]
          (foldAnd (orSplitTerm.conjuncts.filter (fun c => c.refsAncestors)))) false false none none] none) ∧
    (orSplitTerm.isTopAnd = false →
      foldAnd (orSplitTerm.conjuncts.filter (fun c => !c.refsAncestors)) = Term.allTerm ∧
      foldAnd (orSplitTerm.conjuncts.filter (fun c => c.refsAncestors)) = orSplitTerm) :=
  c1_rewrite_split orSplitTerm false false none none
    [MergeQuery.mk "ancestors.d" (synthQuery Direction.inbound "d")] [] none
    rfl (by decide) rfl

end Model

namespace Model

/-- The C5 scenario: a query with an explicit ancestors.cloud merge clause,
rewritten for the path ancestors.kind.reported.prop. -/
def cloudKindScenario : Except ModelError Query :=
  Query.rewrite_for_ancestors_descendants
    (Query.merge_with "ancestors.cloud" NavigateUntilRoot (Term.isTerm ["cloud"]) (Query.by "test"))
    ["ancestors.kind.reported.prop"]

/-- The C5 reuse scenario: an explicit ancestors.cloud merge clause and a
rewrite path for the same name. -/
def cloudReuseScenario : Except ModelError Query :=
  Query.rewrite_for_ancestors_descendants
    (Query.merge_with "ancestors.cloud" NavigateUntilRoot (Term.isTerm ["region"]) (Query.by "a"))
    ["ancestors.cloud.reported.kind"]

/-- Counterexample for claim C5: in the merge_with scenario the resulting
merges list names the newly added ancestors.kind entry first and the
preserved ancestors.cloud entry second, not the claimed preserved-first
order. -/
theorem c5_counterexample :
    cloudKindScenario.map Query.currentMergeNames =
      Except.ok ["ancestors.kind", "ancestors.cloud"] ∧
    (["ancestors.kind", "ancestors.cloud"] : List String) ≠
      ["ancestors.cloud", "ancestors.kind"] :=
  ⟨rfl, by decide⟩

/-- Claim C5 (amended): no second merge entry with an existing name is
created (the existing MergeQuery is reused unchanged), and in the merge_with
scenario the resulting merges list holds the newly added ancestors.kind
entry followed by the preserved ancestors.cloud entry, in that order. -/
theorem c5_merge_reuse_order :
    cloudKindScenario = Except.ok (Query.mk
      [Part.mk
        (Term.mergeTerm (Term.isTerm ["test"])
          [MergeQuery.mk "ancestors.kind" (synthQuery Direction.inbound "kind"),
           MergeQuery.mk "ancestors.cloud"
             (Query.mk [Part.mk (Term.isTerm ["cloud"]) false false none none,
                Part.mk Term.allTerm false false none (some NavigateUntilRoot)] none)]
          Term.allTerm) false false none none] none) ∧
    cloudReuseScenario = Except.ok (Query.mk
      [Part.mk
        (Term.mergeTerm (Term.isTerm ["a"])
          [MergeQuery.mk "ancestors.cloud"
             (Query.mk [Part.mk (Term.isTerm ["region"]) false false none none,
                Part.mk Term.allTerm false false none (some NavigateUntilRoot)] none)]
          Term.allTerm) false false none none] none) ∧
    Part.merge_queries_for
        (Part.mk (Term.mergeTerm Term.allTerm
          [MergeQuery.mk "ancestors.foo" (synthQuery Direction.inbound "foo")] Term.allTerm)
          false false none none)
        ["ancestors.foo.reported.bla"] =
      Except.ok [MergeQuery.mk "ancestors.foo" (synthQuery Direction.inbound "foo")] :=
  ⟨rfl, rfl, rfl⟩

theorem c8_limit_min (la rf : Part) :
    la.limit.isSome = true → rf.limit.isSome = true →
    combineLimits la.limit rf.limit = some (min (la.limit.getD 0) (rf.limit.getD 0)) := by
  intro hx hy
  cases hla2 : la.limit with
  | none => rw [hla2] at hx; cases hx
  | some x =>
    cases hrf2 : rf.limit with
    | none => rw [hrf2] at hy; cases hy
    | some y => simp [combineLimits]

/-- Claim C8 (amended): combine fails with the incompatible-query error
exactly when both queries carry an aggregation clause, or the first query's
current part has no navigation (so the parts are conjoined) and both
conjoined parts carry an explicit merge clause; in the conjoining case the
conjoined part's limit combines the two limits, which is their minimum when
both are set. Stated for a single-part second query, mirroring the
with_limit test. -/
theorem c8_combine (a b : Query) (la rf : Part) (ras : List Part)
    (ha : a.parts = la :: ras) (hb : b.parts = [rf]) :
    (Query.combine a b = Except.error ModelError.incompatibleQuery ↔
      (a.aggregate.isSome = true ∧ b.aggregate.isSome = true) ∨
      (la.navigation = none ∧ hasMergeClause la = true ∧ hasMergeClause rf = true)) ∧
    (la.navigation = none →
      (hasMergeClause la = true ∧ hasMergeClause rf = true → False) →
      (a.aggregate.isSome = true ∧ b.aggregate.isSome = true → False) →
      (Query.combine a b).map Query.currentLimit =
        Except.ok (combineLimits la.limit rf.limit)) ∧
    (la.limit.isSome = true → rf.limit.isSome = true →
      combineLimits la.limit rf.limit = some (min (la.limit.getD 0) (rf.limit.getD 0))) := by
  have hbl : b.parts.getLast? = some rf := by rw [hb]; rfl
  have hAndIff : ((a.aggregate.isSome && b.aggregate.isSome) = true) ↔
      (a.aggregate.isSome = true ∧ b.aggregate.isSome = true) := by simp
  have hMcIff : ((hasMergeClause la && hasMergeClause rf) = true) ↔
      (hasMergeClause la = true ∧ hasMergeClause rf = true) := by simp
  by_cases hagg : (a.aggregate.isSome && b.aggregate.isSome) = true
  · refine ⟨?_, ?_, c8_limit_min la rf⟩
    · simp only [Query.combine, if_pos hagg]
      exact ⟨fun _ => Or.inl (hAndIff.mp hagg), fun _ => by trivial⟩
    · intro _ _ hno
      exact absurd (hAndIff.mp hagg) hno
  · have hagg' : ¬(a.aggregate.isSome = true ∧ b.aggregate.isSome = true) :=
      fun hc => hagg (hAndIff.mpr hc)
    simp only [Query.combine, if_neg hagg, ha, hbl]
    by_cases hnav : la.navigation.isSome = true
    · simp only [if_pos hnav]
      refine ⟨?_, ?_, c8_limit_min la rf⟩
      · constructor
        · intro hcontra; exact Except.noConfusion hcontra
        · intro hor
          rcases hor with h1 | h2
          · exact absurd h1 hagg'
          · rw [h2.1] at hnav; cases hnav
      · intro hnone; rw [hnone] at hnav; cases hnav
    · have hnone : la.navigation = none := by
        cases hla3 : la.navigation with
        | none => rfl
        | some nv => rw [hla3] at hnav; exact absurd rfl hnav
      simp only [if_neg hnav]
      by_cases hmc : (hasMergeClause la && hasMergeClause rf) = true
      · simp only [if_pos hmc]
        refine ⟨?_, ?_, c8_limit_min la rf⟩
        · exact ⟨fun _ => Or.inr ⟨hnone, hMcIff.mp hmc⟩, fun _ => by trivial⟩
        · intro _ hno _
          exact absurd (hMcIff.mp hmc) hno
      · simp only [if_neg hmc]
        refine ⟨?_, ?_, c8_limit_min la rf⟩
        · constructor
          · intro hcontra; exact Except.noConfusion hcontra
          · intro hor
            rcases hor with h1 | h2
            · exact absurd h1 hagg'
            · exact absurd ⟨h2.2.1, h2.2.2⟩ (fun hc => hmc (hMcIff.mpr hc))
        · intro _ _ _
          simp only [hb]
          rfl

/-- The first query of the C8 counterexample: its current part carries both
a navigation and the limit 2. -/
def navLimitA : Query :=
  Query.mk [Part.mk (Term.isTerm ["a"]) false false (some 2) (some NavigateUntilRoot)] none

/-- The second query of the C8 counterexample, with limit 10. -/
def navLimitB : Query :=
  Query.mk [Part.mk (Term.isTerm ["b"]) false false (some 10) none] none

/-- Counterexample for claim C8: both queries carry a limit (2 and 10), yet
since the first query's current part has a navigation the part lists are
concatenated and the combined query keeps limit 10, not the minimum 2. -/
theorem c8_counterexample :
    (Query.combine navLimitA navLimitB).map Query.currentLimit = Except.ok (some 10) ∧
    (some 10 : Option Nat) ≠ some (min 2 10) :=
  ⟨rfl, by decide⟩

/-- The current part of the first C8 witness query. -/
def cwPartA : Part := Part.mk (Term.isTerm ["a"]) false false (some 10) none

/-- The current part of the second C8 witness query. -/
def cwPartB : Part := Part.mk (Term.isTerm ["b"]) false false (some 2) none

/-- The first C8 witness query. -/
def combineWitnessA : Query := Query.mk [cwPartA] none

/-- The second C8 witness query. -/
def combineWitnessB : Query := Query.mk [cwPartB] none

/-- Witness for C8 at two single-part queries with limits 10 and 2. -/
theorem c8_combine_witness :
    (Query.combine combineWitnessA combineWitnessB = Except.error ModelError.incompatibleQuery ↔
      (combineWitnessA.aggregate.isSome = true ∧ combineWitnessB.aggregate.isSome = true) ∨
      (cwPartA.navigation = none ∧ hasMergeClause cwPartA = true ∧ hasMergeClause cwPartB = true)) ∧
    (cwPartA.navigation = none →
      (hasMergeClause cwPartA = true ∧ hasMergeClause cwPartB = true → False) →
      (combineWitnessA.aggregate.isSome = true ∧ combineWitnessB.aggregate.isSome = true → False) →
      (Query.combine combineWitnessA combineWitnessB).map Query.currentLimit =
        Except.ok (combineLimits cwPartA.limit cwPartB.limit)) ∧
    (cwPartA.limit.isSome = true → cwPartB.limit.isSome = true →
      combineLimits cwPartA.limit cwPartB.limit =
        some (min (cwPartA.limit.getD 0) (cwPartB.limit.getD 0))) :=
  c8_combine combineWitnessA combineWitnessB cwPartA cwPartB [] rfl rfl

end Model
